import Mathlib

/-!
# Verification of the stivale2 boot-information decoder (`src/v2/mod.rs`)

A shallow embedding of the `StivaleStruct` container and its tag-chain
operations.  Raw bootloader memory is modelled as a byte-addressed map
`Mem : Nat → Nat`; the unsafe pointer reads/writes of the source become
explicit little-endian reads/writes on that map.  The companion modules
`tag.rs`, `header.rs` and `utils.rs` are not part of the given sources,
so the pieces of them the claims need (the 16-byte `StivaleTagHeader`
layout, the `new_from_ptr_count` variable-tag constructor, and
`string_from_slice`) are modelled from the specification, as marked on
their doc comments.
-/

set_option maxHeartbeats 1000000

/-- Byte-addressed memory: each address holds one byte (values kept below
256 by the write operations; reads just report what is stored). -/
def Mem : Type := Nat → Nat

/-- Store a single byte at address `a`. -/
def wbyte (m : Mem) (a b : Nat) : Mem := fun x => if x = a then b else m x

/-- Store a list of bytes starting at address `a` (ascending addresses). -/
def writeBytes : Mem → Nat → List Nat → Mem
  | m, _, [] => m
  | m, a, b :: bs => writeBytes (wbyte m a b) (a + 1) bs

/-- The `n` bytes stored at addresses `a, a+1, …, a+n-1`. -/
def readBytes (m : Mem) : Nat → Nat → List Nat
  | _, 0 => []
  | a, n + 1 => m a :: readBytes m (a + 1) n

/-- Little-endian value of the `n` bytes at address `a`. -/
def leRead (m : Mem) : Nat → Nat → Nat
  | _, 0 => 0
  | a, n + 1 => m a + 256 * leRead m (a + 1) n

/-- Little-endian byte decomposition of `v` into `n` bytes. -/
def toBytes : Nat → Nat → List Nat
  | _, 0 => []
  | v, n + 1 => v % 256 :: toBytes (v / 256) n

/-- Value encoded by a little-endian byte list. -/
def fromBytes : List Nat → Nat
  | [] => 0
  | b :: bs => b + 256 * fromBytes bs

/-- Read a 64-bit unsigned integer at byte address `a` (models `*(p as *const u64)`). -/
def readU64 (m : Mem) (a : Nat) : Nat := leRead m a 8

/-- Write a 64-bit unsigned integer at byte address `a`. -/
def writeU64 (m : Mem) (a v : Nat) : Mem := writeBytes m a (toBytes v 8)

/-- The all-zero memory, used to build concrete example memories. -/
def zeroMem : Mem := fun _ => 0

/-- Build a memory holding the given 64-bit values at the given byte addresses. -/
def mkMem (l : List (Nat × Nat)) : Mem :=
  l.foldl (fun m p => writeU64 m p.1 p.2) zeroMem

theorem writeBytes_apply_out (bs : List Nat) (m : Mem) (a x : Nat)
    (h : x < a ∨ a + bs.length ≤ x) : writeBytes m a bs x = m x := by
  induction bs generalizing m a with
  | nil => rfl
  | cons b bs ih =>
    have hx : x ≠ a := by
      rcases h with h | h
      · omega
      · simp only [List.length_cons] at h; omega
    have : writeBytes (wbyte m a b) (a + 1) bs x = wbyte m a b x := by
      apply ih
      rcases h with h | h
      · left; omega
      · right; simp only [List.length_cons] at h; omega
    simp only [writeBytes, this, wbyte, if_neg hx]

theorem toBytes_length (v n : Nat) : (toBytes v n).length = n := by
  induction n generalizing v with
  | zero => rfl
  | succ n ih => simp [toBytes, ih]

theorem fromBytes_toBytes (v n : Nat) : fromBytes (toBytes v n) = v % 256 ^ n := by
  induction n generalizing v with
  | zero => simp [toBytes, fromBytes, Nat.mod_one]
  | succ n ih =>
    simp only [toBytes, fromBytes, ih]
    rw [pow_succ, Nat.mul_comm (256 ^ n) 256, Nat.mod_mul]

theorem leRead_writeBytes (bs : List Nat) (m : Mem) (a : Nat) :
    leRead (writeBytes m a bs) a bs.length = fromBytes bs := by
  induction bs generalizing m a with
  | nil => rfl
  | cons b bs ih =>
    simp only [writeBytes, List.length_cons, leRead, fromBytes]
    have h1 : writeBytes (wbyte m a b) (a + 1) bs a = wbyte m a b a :=
      writeBytes_apply_out bs _ _ _ (Or.inl (by omega))
    rw [h1, ih]
    simp [wbyte]

theorem leRead_congr (m₁ m₂ : Mem) (a n : Nat)
    (h : ∀ x, a ≤ x → x < a + n → m₁ x = m₂ x) : leRead m₁ a n = leRead m₂ a n := by
  induction n generalizing a with
  | zero => rfl
  | succ n ih =>
    simp only [leRead]
    rw [h a (by omega) (by omega), ih (a + 1) (fun x hx hx2 => h x (by omega) (by omega))]

theorem readBytes_congr (m₁ m₂ : Mem) (a n : Nat)
    (h : ∀ x, a ≤ x → x < a + n → m₁ x = m₂ x) : readBytes m₁ a n = readBytes m₂ a n := by
  induction n generalizing a with
  | zero => rfl
  | succ n ih =>
    simp only [readBytes]
    rw [h a (by omega) (by omega), ih (a + 1) (fun x hx hx2 => h x (by omega) (by omega))]

theorem readU64_writeU64_same (m : Mem) (a v : Nat) :
    readU64 (writeU64 m a v) a = v % 2 ^ 64 := by
  have h8 : (toBytes v 8).length = 8 := toBytes_length v 8
  have := leRead_writeBytes (toBytes v 8) m a
  rw [h8] at this
  rw [readU64, writeU64, this, fromBytes_toBytes]
  norm_num

theorem writeU64_apply_out (m : Mem) (w v x : Nat) (h : x < w ∨ w + 8 ≤ x) :
    writeU64 m w v x = m x := by
  apply writeBytes_apply_out
  rw [toBytes_length]
  exact h

theorem readU64_writeU64_out (m : Mem) (w v a : Nat) (h : a + 8 ≤ w ∨ w + 8 ≤ a) :
    readU64 (writeU64 m w v) a = readU64 m a := by
  apply leRead_congr
  intro x hx hx2
  apply writeU64_apply_out
  omega

theorem readBytes_writeU64_out (m : Mem) (w v a n : Nat) (h : a + n ≤ w ∨ w + 8 ≤ a) :
    readBytes (writeU64 m w v) a n = readBytes m a n := by
  apply readBytes_congr
  intro x hx hx2
  apply writeU64_apply_out
  omega

/-- The top-level `StivaleStruct` boot-information block: two fixed-capacity
identification byte buffers and the 64-bit address of the first tag
(`tags`, 0 meaning "no tags").  The buffers are modelled as byte lists
(well-formed structs have length 64). -/
structure StivaleStruct where
  bootloader_brand : List Nat
  bootloader_version : List Nat
  tags : Nat
deriving DecidableEq

/-- Embeds `StivaleStruct::new`: zeroed buffers and a null first-tag address. -/
def StivaleStruct.new : StivaleStruct :=
  ⟨List.replicate 64 0, List.replicate 64 0, 0⟩

/-- Embeds `StivaleStruct::add_tag`: stores the address at which the supplied
tag header lives into the `tags` field (the chain head). -/
def StivaleStruct.add_tag (s : StivaleStruct) (headerAddr : Nat) : StivaleStruct :=
  { s with tags := headerAddr }

/-- Embeds `StivaleStruct::set_bootloader_brand`.  The source slices
`self.bootloader_brand[..brand.len()]` and copies `brand` into it; the slice
operation panics before any byte is written when `brand.len()` exceeds the
buffer length, which the embedding reports as the flag `false` with the
struct unchanged. -/
def StivaleStruct.set_bootloader_brand (s : StivaleStruct) (brand : List Nat) :
    StivaleStruct × Bool :=
  if brand.length ≤ s.bootloader_brand.length then
    ({ s with bootloader_brand := brand ++ s.bootloader_brand.drop brand.length }, true)
  else (s, false)

/-- Embeds `StivaleStruct::set_bootloader_version` (same shape as the brand setter). -/
def StivaleStruct.set_bootloader_version (s : StivaleStruct) (version : List Nat) :
    StivaleStruct × Bool :=
  if version.length ≤ s.bootloader_version.length then
    ({ s with bootloader_version := version ++ s.bootloader_version.drop version.length }, true)
  else (s, false)

/-- Modelled from the spec: `utils::string_from_slice` (in `utils.rs`, not among
the given sources) converts the fixed byte buffer to printable text, stopping
at the first NUL padding byte.  The resulting string is identified with its
byte sequence. -/
def string_from_slice (l : List Nat) : List Nat :=
  l.takeWhile (fun b => b != 0)

/-- Embeds `StivaleStruct::bootloader_brand` (the read accessor). -/
def StivaleStruct.bootloader_brand_str (s : StivaleStruct) : List Nat :=
  string_from_slice s.bootloader_brand

/-- Embeds `StivaleStruct::bootloader_version` (the read accessor). -/
def StivaleStruct.bootloader_version_str (s : StivaleStruct) : List Nat :=
  string_from_slice s.bootloader_version

/-- Modelled from the spec: `StivaleTagHeader` (in `tag.rs`, not among the given
sources) is the shared 16-byte tag prefix `{identifier: u64, next: u64}`, so
`mem::size_of::<StivaleTagHeader>()` is 16. -/
def tagHeaderSize : Nat := 16

/-- The `identifier` field of the tag header at `addr` (offset 0). -/
def tagIdentifier (m : Mem) (addr : Nat) : Nat := readU64 m addr

/-- The `next` field of the tag header at `addr` (offset 8). -/
def tagNext (m : Mem) (addr : Nat) : Nat := readU64 m (addr + 8)

/-- Fuel-indexed embedding of the while-loop inside `StivaleStruct::get_tag`:
starting from `cur`, stop with `none` on a null pointer, return the current
address on an identifier match, otherwise follow the `next` field.  The fuel
parameter makes the possibly non-terminating raw loop a total function; on a
finite chain the result is fuel-independent once the fuel reaches the chain
length (see the termination theorem). -/
def getTagLoop (m : Mem) (identifier : Nat) : Nat → Nat → Option Nat
  | 0, _ => none
  | fuel + 1, cur =>
    if cur = 0 then none
    else if tagIdentifier m cur = identifier then some cur
    else getTagLoop m identifier fuel (tagNext m cur)

/-- Embeds `StivaleStruct::get_tag`, the linear scan of the tag chain. -/
def StivaleStruct.get_tag (s : StivaleStruct) (m : Mem) (fuel identifier : Nat) : Option Nat :=
  getTagLoop m identifier fuel s.tags

/-- A finite, acyclic, null-terminated tag chain in memory `m` starting at a
given address: the list collects the tag addresses in chain order.  This is
the well-formedness invariant the source trusts the bootloader to uphold. -/
inductive Chain (m : Mem) : Nat → List Nat → Prop
  | nil : Chain m 0 []
  | cons {a : Nat} {l : List Nat} (ha : a ≠ 0) (hl : Chain m (tagNext m a) l) :
      Chain m a (a :: l)

theorem getTagLoop_null (m : Mem) (identifier fuel : Nat) :
    getTagLoop m identifier fuel 0 = none := by
  cases fuel <;> simp [getTagLoop]

theorem getTagLoop_chain (m : Mem) (identifier : Nat) {a : Nat} {l : List Nat}
    (hc : Chain m a l) :
    ∀ fuel, l.length ≤ fuel →
      getTagLoop m identifier fuel a = l.find? (fun t => tagIdentifier m t == identifier) := by
  induction hc with
  | nil =>
    intro fuel _
    simp [getTagLoop_null]
  | @cons b l2 ha hl ih =>
    intro fuel hfuel
    rcases fuel with _ | fuel
    · simp at hfuel
    · simp only [getTagLoop, if_neg ha, List.find?]
      by_cases hid : tagIdentifier m b = identifier
      · simp [hid]
      · rw [if_neg hid]
        have hb : (tagIdentifier m b == identifier) = false := by
          simp [hid]
        rw [hb]
        refine ih fuel ?_
        simp only [List.length_cons] at hfuel
        omega

theorem getTagLoop_congr (m m' : Mem) (identifier : Nat) {a : Nat} {l : List Nat}
    (hc : Chain m a l)
    (hid : ∀ t ∈ l, tagIdentifier m' t = tagIdentifier m t)
    (hnx : ∀ t ∈ l, tagNext m' t = tagNext m t) :
    ∀ fuel, getTagLoop m' identifier fuel a = getTagLoop m identifier fuel a := by
  induction hc with
  | nil =>
    intro fuel
    simp [getTagLoop_null]
  | @cons b l2 ha hl ih =>
    intro fuel
    rcases fuel with _ | fuel
    · rfl
    · simp only [getTagLoop, if_neg ha]
      rw [hid _ (List.mem_cons_self _ _), hnx _ (List.mem_cons_self _ _)]
      by_cases h : tagIdentifier m b = identifier
      · simp [h]
      · rw [if_neg h, if_neg h]
        exact ih (fun t ht => hid t (List.mem_cons_of_mem _ ht))
          (fun t ht => hnx t (List.mem_cons_of_mem _ ht)) fuel

/-- A chain remains a chain in a memory agreeing on all header fields. -/
theorem Chain.congr (m m' : Mem) {a : Nat} {l : List Nat} (hc : Chain m a l)
    (hnx : ∀ t ∈ l, tagNext m' t = tagNext m t) : Chain m' a l := by
  induction hc with
  | nil => exact Chain.nil
  | cons ha hl ih =>
    refine Chain.cons ha ?_
    rw [hnx _ (List.mem_cons_self _ _)]
    exact ih (fun t ht => hnx t (List.mem_cons_of_mem _ ht))

/-- Modelled from the spec: the logical view produced by the per-kind
`new_from_ptr_count` constructors (in `tag.rs`, not among the given sources).
It records the tag base address, the size of the kind's fixed header portion
(record array start = `base + fixedSize`), the per-record stride and the
record count; it performs no copy and no memory access of its own. -/
structure VarTagView where
  base : Nat
  fixedSize : Nat
  stride : Nat
  count : Nat
deriving DecidableEq

/-- Modelled from the spec: the shared shape of the `new_from_ptr_count`
constructors, pure address bookkeeping from a base pointer and a count. -/
def new_from_ptr_count (base fixedSize stride count : Nat) : VarTagView :=
  ⟨base, fixedSize, stride, count⟩

/-- Start address of the record array of a variable-shape tag view. -/
def VarTagView.recordArrayBase (v : VarTagView) : Nat := v.base + v.fixedSize

/-- Start address of the i-th record, 1-based (record 1 sits at the array base). -/
def VarTagView.recordAddr (v : VarTagView) (i : Nat) : Nat :=
  v.recordArrayBase + (i - 1) * v.stride

/-- Address of byte `j` of the 0-based record `i`: every byte the decoder's
record accesses touch has this form with `i < count` and `j < stride`. -/
def VarTagView.recordByteAddr (v : VarTagView) (i j : Nat) : Nat :=
  v.recordArrayBase + i * v.stride + j

/-- The bytes of the 0-based record `i` of the view. -/
def VarTagView.readRecord (m : Mem) (v : VarTagView) (i : Nat) : List Nat :=
  readBytes m (v.recordArrayBase + i * v.stride) v.stride

/-- Modelled from the spec: memory-map record `{base: u64, length: u64, kind: u32, unused: u32}`. -/
def memoryMapStride : Nat := 24

/-- Modelled from the spec: memory-map fixed header = 16-byte TagHeader plus the 64-bit count. -/
def memoryMapFixedSize : Nat := tagHeaderSize + 8

/-- Modelled from the spec: the EDID tag stores raw EDID bytes, one byte per record. -/
def edidStride : Nat := 1

/-- Modelled from the spec: EDID fixed header = 16-byte TagHeader plus the 64-bit count. -/
def edidFixedSize : Nat := tagHeaderSize + 8

/-- Modelled from the spec: module record `{begin: u64, end: u64, name: [u8; 128]}`. -/
def moduleStride : Nat := 144

/-- Modelled from the spec: modules fixed header = 16-byte TagHeader plus the 64-bit count. -/
def moduleFixedSize : Nat := tagHeaderSize + 8

/-- Modelled from the spec: PMR record of three 64-bit fields (base, size, permissions). -/
def pmrStride : Nat := 24

/-- Modelled from the spec: PMR fixed header = 16-byte TagHeader plus the 64-bit count. -/
def pmrFixedSize : Nat := tagHeaderSize + 8

/-- Modelled from the spec: SMP CPU record `{processor_id: u32, lapic_id: u32,
target_stack: u64, extra_argument: u64}`; the `target_stack` field sits at
byte offset 8 of its record. -/
def smpStride : Nat := 24

/-- Modelled from the spec: the SMP tag's `cpu_count` lies at offset 32 because
two 64-bit fields follow the 16-byte TagHeader, and the CPU records start
right after the count. -/
def smpFixedSize : Nat := 40

/-- Embeds `StivaleStruct::command_line`: lookup then cast, the returned typed
reference being identified with its address. -/
def StivaleStruct.command_line (s : StivaleStruct) (m : Mem) (fuel : Nat) : Option Nat :=
  (s.get_tag m fuel 0xe5e76a1b4597a781).map (fun addr => addr)

/-- Embeds `StivaleStruct::memory_map`: lookup, read the count right after the
TagHeader, then `new_from_ptr_count`. -/
def StivaleStruct.memory_map (s : StivaleStruct) (m : Mem) (fuel : Nat) : Option VarTagView :=
  (s.get_tag m fuel 0x2187f79e8612de07).map (fun addr =>
    new_from_ptr_count addr memoryMapFixedSize memoryMapStride
      (readU64 m (addr + tagHeaderSize)))

/-- Embeds `StivaleStruct::framebuffer`. -/
def StivaleStruct.framebuffer (s : StivaleStruct) (m : Mem) (fuel : Nat) : Option Nat :=
  (s.get_tag m fuel 0x506461d2950408fa).map (fun addr => addr)

/-- Embeds `StivaleStruct::edid_info`: lookup, read the count right after the
TagHeader, then `new_from_ptr_count`. -/
def StivaleStruct.edid_info (s : StivaleStruct) (m : Mem) (fuel : Nat) : Option VarTagView :=
  (s.get_tag m fuel 0x968609d7af96b845).map (fun addr =>
    new_from_ptr_count addr edidFixedSize edidStride
      (readU64 m (addr + tagHeaderSize)))

/-- Embeds `StivaleStruct::mtrr` (deprecated tag, kept in the catalog). -/
def StivaleStruct.mtrr (s : StivaleStruct) (m : Mem) (fuel : Nat) : Option Nat :=
  (s.get_tag m fuel 0x6bc1a78ebe871172).map (fun addr => addr)

/-- Embeds `StivaleStruct::terminal`. -/
def StivaleStruct.terminal (s : StivaleStruct) (m : Mem) (fuel : Nat) : Option Nat :=
  (s.get_tag m fuel 0xc2b3f4c3233b0974).map (fun addr => addr)

/-- Embeds `StivaleStruct::modules`: lookup, read the count right after the
TagHeader, then `new_from_ptr_count`. -/
def StivaleStruct.modules (s : StivaleStruct) (m : Mem) (fuel : Nat) : Option VarTagView :=
  (s.get_tag m fuel 0x4b6fe466aade04ce).map (fun addr =>
    new_from_ptr_count addr moduleFixedSize moduleStride
      (readU64 m (addr + tagHeaderSize)))

/-- Embeds `StivaleStruct::rsdp`. -/
def StivaleStruct.rsdp (s : StivaleStruct) (m : Mem) (fuel : Nat) : Option Nat :=
  (s.get_tag m fuel 0x9e1786930a375e78).map (fun addr => addr)

/-- Embeds `StivaleStruct::smbios`. -/
def StivaleStruct.smbios (s : StivaleStruct) (m : Mem) (fuel : Nat) : Option Nat :=
  (s.get_tag m fuel 0x274bd246c62bf7d1).map (fun addr => addr)

/-- Embeds `StivaleStruct::epoch`. -/
def StivaleStruct.epoch (s : StivaleStruct) (m : Mem) (fuel : Nat) : Option Nat :=
  (s.get_tag m fuel 0x566a7bed888e1407).map (fun addr => addr)

/-- Embeds `StivaleStruct::firmware`. -/
def StivaleStruct.firmware (s : StivaleStruct) (m : Mem) (fuel : Nat) : Option Nat :=
  (s.get_tag m fuel 0x359d837855e3858c).map (fun addr => addr)

/-- Embeds `StivaleStruct::efi_system_table`. -/
def StivaleStruct.efi_system_table (s : StivaleStruct) (m : Mem) (fuel : Nat) : Option Nat :=
  (s.get_tag m fuel 0x4bc5ec15845b558e).map (fun addr => addr)

/-- Embeds `StivaleStruct::kernel_file`. -/
def StivaleStruct.kernel_file (s : StivaleStruct) (m : Mem) (fuel : Nat) : Option Nat :=
  (s.get_tag m fuel 0xe599d90c2975584a).map (fun addr => addr)

/-- Embeds `StivaleStruct::kernel_slide`. -/
def StivaleStruct.kernel_slide (s : StivaleStruct) (m : Mem) (fuel : Nat) : Option Nat :=
  (s.get_tag m fuel 0xee80847d01506c57).map (fun addr => addr)

/-- Embeds `StivaleStruct::smp`: lookup, read the count at offset 32 (`+32
calculated from the definition of the struct, offset to the cpu_count`),
then `new_from_ptr_count`. -/
def StivaleStruct.smp (s : StivaleStruct) (m : Mem) (fuel : Nat) : Option VarTagView :=
  (s.get_tag m fuel 0x34d1d96339647025).map (fun addr =>
    new_from_ptr_count addr smpFixedSize smpStride (readU64 m (addr + 32)))

/-- Embeds `StivaleStruct::smp_mut`: the same lookup and decode as `smp`; the
returned view is the one the kernel is allowed to write records through. -/
def StivaleStruct.smp_mut (s : StivaleStruct) (m : Mem) (fuel : Nat) : Option VarTagView :=
  (s.get_tag m fuel 0x34d1d96339647025).map (fun addr =>
    new_from_ptr_count addr smpFixedSize smpStride (readU64 m (addr + 32)))

/-- Embeds `StivaleStruct::pxe_info`. -/
def StivaleStruct.pxe_info (s : StivaleStruct) (m : Mem) (fuel : Nat) : Option Nat :=
  (s.get_tag m fuel 0x29d1e96239247032).map (fun addr => addr)

/-- Embeds `StivaleStruct::uart`. -/
def StivaleStruct.uart (s : StivaleStruct) (m : Mem) (fuel : Nat) : Option Nat :=
  (s.get_tag m fuel 0xb813f9b8dbc78797).map (fun addr => addr)

/-- Embeds `StivaleStruct::dev_tree`. -/
def StivaleStruct.dev_tree (s : StivaleStruct) (m : Mem) (fuel : Nat) : Option Nat :=
  (s.get_tag m fuel 0xabb29bd49a2833fa).map (fun addr => addr)

/-- Embeds `StivaleStruct::vmap`. -/
def StivaleStruct.vmap (s : StivaleStruct) (m : Mem) (fuel : Nat) : Option Nat :=
  (s.get_tag m fuel 0xb0ed257db18cb58f).map (fun addr => addr)

/-- Embeds `StivaleStruct::kernel_file_v2`. -/
def StivaleStruct.kernel_file_v2 (s : StivaleStruct) (m : Mem) (fuel : Nat) : Option Nat :=
  (s.get_tag m fuel 0x37c13018a02c6ea2).map (fun addr => addr)

/-- Embeds `StivaleStruct::pmrs`: lookup, read the count right after the
TagHeader, then `new_from_ptr_count`. -/
def StivaleStruct.pmrs (s : StivaleStruct) (m : Mem) (fuel : Nat) : Option VarTagView :=
  (s.get_tag m fuel 0x5df266a64047b6bd).map (fun addr =>
    new_from_ptr_count addr pmrFixedSize pmrStride
      (readU64 m (addr + tagHeaderSize)))

/-- Embeds `StivaleStruct::kernel_base_addr`. -/
def StivaleStruct.kernel_base_addr (s : StivaleStruct) (m : Mem) (fuel : Nat) : Option Nat :=
  (s.get_tag m fuel 0x060d78874a2a8af0).map (fun addr => addr)

/-- Byte address of the `target_stack` field (record offset 8) of the 0-based
record `i` of an SMP view; `writeTargetStack` models the kernel writing that
field through the mutable accessor's reference. -/
def VarTagView.targetStackAddr (v : VarTagView) (i : Nat) : Nat :=
  v.recordArrayBase + i * v.stride + 8

/-- Read the `target_stack` field of the 0-based record `i` of an SMP view. -/
def readTargetStack (m : Mem) (v : VarTagView) (i : Nat) : Nat :=
  readU64 m (v.targetStackAddr i)

/-- Write the `target_stack` field of the 0-based record `i` of an SMP view. -/
def writeTargetStack (m : Mem) (v : VarTagView) (i : Nat) (val : Nat) : Mem :=
  writeU64 m (v.targetStackAddr i) val

theorem option_isSome_map {α β : Type} (o : Option α) (f : α → β) :
    (o.map f).isSome = o.isSome := by
  cases o <;> rfl

/-- Example memory for the duplicate-identifier chain: tags at 100 and 200,
both carrying identifier 5, the second terminating the chain. -/
def exMem1 : Mem := mkMem [(100, 5), (108, 200), (200, 5)]

/-- Example struct whose chain starts at address 100. -/
def exS1 : StivaleStruct := ⟨List.replicate 64 0, List.replicate 64 0, 100⟩

theorem exChain1 : Chain exMem1 100 [100, 200] := by
  refine Chain.cons (by decide) ?_
  have h1 : tagNext exMem1 100 = 200 := by decide
  rw [h1]
  refine Chain.cons (by decide) ?_
  have h2 : tagNext exMem1 200 = 0 := by decide
  rw [h2]
  exact Chain.nil

/-- C1: `get_tag(identifier)` scans the tag chain from the first-tag address in
list order and returns the address of the first `TagHeader` whose identifier
field equals the requested value; if no tag of the chain matches (including
the empty chain) it returns `none`, and when several tags share the
identifier the one earliest in chain order is returned, so later duplicates
are unreachable through `get_tag`. -/
theorem get_tag_returns_first_match (m : Mem) (s : StivaleStruct) (identifier : Nat)
    {l : List Nat} (hc : Chain m s.tags l) (fuel : Nat) (hfuel : l.length ≤ fuel) :
    ((∀ t ∈ l, tagIdentifier m t ≠ identifier) → s.get_tag m fuel identifier = none) ∧
    (∀ l₁ t l₂, l = l₁ ++ t :: l₂ → tagIdentifier m t = identifier →
      (∀ u ∈ l₁, tagIdentifier m u ≠ identifier) →
      s.get_tag m fuel identifier = some t) := by
  have hfind := getTagLoop_chain m identifier hc fuel hfuel
  constructor
  · intro hall
    show getTagLoop m identifier fuel s.tags = none
    rw [hfind, List.find?_eq_none]
    intro x hx
    simp [hall x hx]
  · intro l₁ t l₂ hl ht hnone
    show getTagLoop m identifier fuel s.tags = some t
    rw [hfind, hl, List.find?_append]
    have h1 : l₁.find? (fun u => tagIdentifier m u == identifier) = none := by
      rw [List.find?_eq_none]
      intro x hx
      simp [hnone x hx]
    rw [h1]
    have h2 : (t :: l₂).find? (fun u => tagIdentifier m u == identifier) = some t :=
      List.find?_cons_of_pos _ (by simp [ht])
    rw [h2]
    rfl

/-- C1 witness: on the concrete two-tag chain `[100, 200]` whose tags both
carry identifier 5, `get_tag 5` returns the earlier address 100. -/
theorem get_tag_returns_first_match_witness :
    ([100, 200].length ≤ 2) ∧ tagIdentifier exMem1 100 = 5 ∧ tagIdentifier exMem1 200 = 5 ∧
    exS1.get_tag exMem1 2 5 = some 100 :=
  ⟨by decide, by decide, by decide,
    (get_tag_returns_first_match exMem1 exS1 5 exChain1 2 (by decide)).2
      [] 100 [200] rfl (by decide) (by decide)⟩

/-- Example memory for the termination witness: a single tag at 300 with
identifier 7 and null next pointer. -/
def exMem2 : Mem := mkMem [(300, 7)]

/-- Example struct whose chain starts at address 300. -/
def exS2 : StivaleStruct := ⟨List.replicate 64 0, List.replicate 64 0, 300⟩

theorem exChain2 : Chain exMem2 300 [300] := by
  refine Chain.cons (by decide) ?_
  have h : tagNext exMem2 300 = 0 := by decide
  rw [h]
  exact Chain.nil

/-- C5: under the precondition that the chain reachable from the first-tag
address is finite and acyclic (`Chain`), `get_tag` terminates for every
identifier: the loop performs at most one hop per chain element, so its
result is independent of any fuel bound of at least the chain length. -/
theorem get_tag_terminates (m : Mem) (s : StivaleStruct) (identifier : Nat)
    {l : List Nat} (hc : Chain m s.tags l) (fuel fuel2 : Nat)
    (h1 : l.length ≤ fuel) (h2 : l.length ≤ fuel2) :
    s.get_tag m fuel identifier = s.get_tag m fuel2 identifier := by
  show getTagLoop m identifier fuel s.tags = getTagLoop m identifier fuel2 s.tags
  rw [getTagLoop_chain m identifier hc fuel h1, getTagLoop_chain m identifier hc fuel2 h2]

/-- C5 witness: on the concrete one-tag chain at 300 every fuel bound of at
least the chain length 1 gives the same lookup result. -/
theorem get_tag_terminates_witness :
    ([300].length ≤ 1) ∧ exS2.get_tag exMem2 1 9 = exS2.get_tag exMem2 6 9 :=
  ⟨by decide, get_tag_terminates exMem2 exS2 9 exChain2 1 6 (by decide) (by decide)⟩

/-- C4: every typed accessor returns a present value exactly when `get_tag`
finds a tag with that accessor's fixed identifier constant; absence is the
`none` option rather than a failure, and on the empty chain (`tags = 0`)
every typed accessor returns `none`. -/
theorem typed_accessors_present_iff_found (m : Mem) (s : StivaleStruct) (fuel : Nat) :
    ((s.command_line m fuel).isSome = (s.get_tag m fuel 0xe5e76a1b4597a781).isSome ∧
     (s.memory_map m fuel).isSome = (s.get_tag m fuel 0x2187f79e8612de07).isSome ∧
     (s.framebuffer m fuel).isSome = (s.get_tag m fuel 0x506461d2950408fa).isSome ∧
     (s.edid_info m fuel).isSome = (s.get_tag m fuel 0x968609d7af96b845).isSome ∧
     (s.mtrr m fuel).isSome = (s.get_tag m fuel 0x6bc1a78ebe871172).isSome ∧
     (s.terminal m fuel).isSome = (s.get_tag m fuel 0xc2b3f4c3233b0974).isSome ∧
     (s.modules m fuel).isSome = (s.get_tag m fuel 0x4b6fe466aade04ce).isSome ∧
     (s.rsdp m fuel).isSome = (s.get_tag m fuel 0x9e1786930a375e78).isSome ∧
     (s.smbios m fuel).isSome = (s.get_tag m fuel 0x274bd246c62bf7d1).isSome ∧
     (s.epoch m fuel).isSome = (s.get_tag m fuel 0x566a7bed888e1407).isSome ∧
     (s.firmware m fuel).isSome = (s.get_tag m fuel 0x359d837855e3858c).isSome ∧
     (s.efi_system_table m fuel).isSome = (s.get_tag m fuel 0x4bc5ec15845b558e).isSome ∧
     (s.kernel_file m fuel).isSome = (s.get_tag m fuel 0xe599d90c2975584a).isSome ∧
     (s.kernel_slide m fuel).isSome = (s.get_tag m fuel 0xee80847d01506c57).isSome ∧
     (s.smp m fuel).isSome = (s.get_tag m fuel 0x34d1d96339647025).isSome ∧
     (s.smp_mut m fuel).isSome = (s.get_tag m fuel 0x34d1d96339647025).isSome ∧
     (s.pxe_info m fuel).isSome = (s.get_tag m fuel 0x29d1e96239247032).isSome ∧
     (s.uart m fuel).isSome = (s.get_tag m fuel 0xb813f9b8dbc78797).isSome ∧
     (s.dev_tree m fuel).isSome = (s.get_tag m fuel 0xabb29bd49a2833fa).isSome ∧
     (s.vmap m fuel).isSome = (s.get_tag m fuel 0xb0ed257db18cb58f).isSome ∧
     (s.kernel_file_v2 m fuel).isSome = (s.get_tag m fuel 0x37c13018a02c6ea2).isSome ∧
     (s.pmrs m fuel).isSome = (s.get_tag m fuel 0x5df266a64047b6bd).isSome ∧
     (s.kernel_base_addr m fuel).isSome = (s.get_tag m fuel 0x060d78874a2a8af0).isSome) ∧
    (s.tags = 0 →
     s.command_line m fuel = none ∧ s.memory_map m fuel = none ∧
     s.framebuffer m fuel = none ∧ s.edid_info m fuel = none ∧
     s.mtrr m fuel = none ∧ s.terminal m fuel = none ∧
     s.modules m fuel = none ∧ s.rsdp m fuel = none ∧
     s.smbios m fuel = none ∧ s.epoch m fuel = none ∧
     s.firmware m fuel = none ∧ s.efi_system_table m fuel = none ∧
     s.kernel_file m fuel = none ∧ s.kernel_slide m fuel = none ∧
     s.smp m fuel = none ∧ s.smp_mut m fuel = none ∧
     s.pxe_info m fuel = none ∧ s.uart m fuel = none ∧
     s.dev_tree m fuel = none ∧ s.vmap m fuel = none ∧
     s.kernel_file_v2 m fuel = none ∧ s.pmrs m fuel = none ∧
     s.kernel_base_addr m fuel = none) := by
  constructor
  · refine ⟨?_, ?_, ?_, ?_, ?_, ?_, ?_, ?_, ?_, ?_, ?_, ?_, ?_, ?_, ?_, ?_, ?_, ?_, ?_, ?_, ?_, ?_, ?_⟩ <;>
      exact option_isSome_map _ _
  · intro h
    have hz : ∀ identifier, s.get_tag m fuel identifier = none := by
      intro identifier
      show getTagLoop m identifier fuel s.tags = none
      rw [h]
      exact getTagLoop_null m identifier fuel
    refine ⟨?_, ?_, ?_, ?_, ?_, ?_, ?_, ?_, ?_, ?_, ?_, ?_, ?_, ?_, ?_, ?_, ?_, ?_, ?_, ?_, ?_, ?_, ?_⟩ <;>
      simp [StivaleStruct.command_line, StivaleStruct.memory_map, StivaleStruct.framebuffer,
        StivaleStruct.edid_info, StivaleStruct.mtrr, StivaleStruct.terminal,
        StivaleStruct.modules, StivaleStruct.rsdp, StivaleStruct.smbios, StivaleStruct.epoch,
        StivaleStruct.firmware, StivaleStruct.efi_system_table, StivaleStruct.kernel_file,
        StivaleStruct.kernel_slide, StivaleStruct.smp, StivaleStruct.smp_mut,
        StivaleStruct.pxe_info, StivaleStruct.uart, StivaleStruct.dev_tree,
        StivaleStruct.vmap, StivaleStruct.kernel_file_v2, StivaleStruct.pmrs,
        StivaleStruct.kernel_base_addr, hz]

/-- C4 witness: the freshly created struct has an empty chain and its
command-line accessor reports absence. -/
theorem typed_accessors_present_iff_found_witness :
    StivaleStruct.new.tags = 0 ∧ StivaleStruct.new.command_line zeroMem 3 = none :=
  ⟨rfl, ((typed_accessors_present_iff_found zeroMem StivaleStruct.new 3).2 rfl).1⟩

/-- C8: after `add_tag`, the struct's first-tag address equals the address at
which the supplied tag header lives (the new chain head), and the bootloader
brand and version buffers are unchanged. -/
theorem add_tag_sets_chain_head (s : StivaleStruct) (headerAddr : Nat) :
    (s.add_tag headerAddr).tags = headerAddr ∧
    (s.add_tag headerAddr).bootloader_brand = s.bootloader_brand ∧
    (s.add_tag headerAddr).bootloader_version = s.bootloader_version :=
  ⟨rfl, rfl, rfl⟩

/-- C9: the brand and version setters complete without fault exactly when the
input's byte length is at most the 64-byte buffer capacity; an oversized
input faults at the slicing step before any byte is written, leaving the
struct unchanged. -/
theorem set_string_faults_iff_oversized (s : StivaleStruct) (str : List Nat)
    (hb : s.bootloader_brand.length = 64) (hv : s.bootloader_version.length = 64) :
    ((s.set_bootloader_brand str).2 = true ↔ str.length ≤ 64) ∧
    ((s.set_bootloader_brand str).2 = false → (s.set_bootloader_brand str).1 = s) ∧
    ((s.set_bootloader_version str).2 = true ↔ str.length ≤ 64) ∧
    ((s.set_bootloader_version str).2 = false → (s.set_bootloader_version str).1 = s) := by
  unfold StivaleStruct.set_bootloader_brand StivaleStruct.set_bootloader_version
  rw [hb, hv]
  by_cases h : str.length ≤ 64
  · simp [h]
  · simp [h]

/-- C9 witness: a 65-byte input faults on the fresh struct and leaves it
unchanged. -/
theorem set_string_faults_iff_oversized_witness :
    StivaleStruct.new.bootloader_brand.length = 64 ∧
    (StivaleStruct.new.set_bootloader_brand (List.replicate 65 1)).1 = StivaleStruct.new := by
  have h := set_string_faults_iff_oversized StivaleStruct.new (List.replicate 65 1)
    (by decide) (by decide)
  exact ⟨by decide, h.2.1 (by decide)⟩

/-- C10: a successful `set_bootloader_brand` overwrites exactly the first
`len` bytes of the brand buffer with the input and leaves the buffer's later
bytes, the whole version buffer and the first-tag address at their previous
values — so a shorter brand set after a longer one leaves the old brand's
trailing bytes in the buffer. -/
theorem set_brand_overwrites_prefix_only (s : StivaleStruct) (brand : List Nat)
    (hb : s.bootloader_brand.length = 64) (hlen : brand.length ≤ 64) :
    (s.set_bootloader_brand brand).1.bootloader_brand.length = 64 ∧
    (∀ i, i < brand.length →
      (s.set_bootloader_brand brand).1.bootloader_brand[i]? = brand[i]?) ∧
    (∀ i, brand.length ≤ i →
      (s.set_bootloader_brand brand).1.bootloader_brand[i]? = s.bootloader_brand[i]?) ∧
    (s.set_bootloader_brand brand).1.bootloader_version = s.bootloader_version ∧
    (s.set_bootloader_brand brand).1.tags = s.tags := by
  have hcond : brand.length ≤ s.bootloader_brand.length := by omega
  have e : s.set_bootloader_brand brand =
      ({ s with bootloader_brand := brand ++ s.bootloader_brand.drop brand.length }, true) := by
    simp [StivaleStruct.set_bootloader_brand, if_pos hcond]
  rw [e]
  refine ⟨?_, ?_, ?_, rfl, rfl⟩
  · simp only [List.length_append, List.length_drop]
    omega
  · intro i hi
    show (brand ++ s.bootloader_brand.drop brand.length)[i]? = brand[i]?
    rw [List.getElem?_append, if_pos hi]
  · intro i hi
    show (brand ++ s.bootloader_brand.drop brand.length)[i]? = s.bootloader_brand[i]?
    rw [List.getElem?_append, if_neg (by omega), List.getElem?_drop]
    congr 1
    omega

/-- Example struct for the frame witness: brand buffer full of nines. -/
def exS10 : StivaleStruct := ⟨List.replicate 64 9, List.replicate 64 0, 5⟩

/-- C10 witness: setting the 2-byte brand `[1, 2]` on a buffer of nines
updates index 0, keeps index 3's old value 9 and keeps the tag address. -/
theorem set_brand_overwrites_prefix_only_witness :
    ((exS10.set_bootloader_brand [1, 2]).1.bootloader_brand[0]? = some 1) ∧
    ((exS10.set_bootloader_brand [1, 2]).1.bootloader_brand[3]? = exS10.bootloader_brand[3]?) ∧
    ((exS10.set_bootloader_brand [1, 2]).1.tags = exS10.tags) := by
  have h := set_brand_overwrites_prefix_only exS10 [1, 2] (by decide) (by decide)
  exact ⟨h.2.1 0 (by decide), h.2.2.1 3 (by decide), h.2.2.2.2⟩

/-- C2: a count-prefixed tag decoded with count `K` yields a view of exactly
`K` records laid out contiguously at the record stride, the 1-based record
`i` starting at `recordArrayBase + (i-1)*stride`; every byte a record access
touches lies strictly below `recordArrayBase + K*stride`, and the count read
itself stays below the record array, so for `K = 0` the view has zero records
and nothing past the count field is read. -/
theorem decoder_record_layout (base fixedSize stride k countOff : Nat) (v : VarTagView)
    (hv : v = new_from_ptr_count base fixedSize stride k)
    (hstride : 0 < stride) (hoff : countOff + 8 ≤ fixedSize) :
    v.count = k ∧
    (∀ i, 1 ≤ i → v.recordAddr i = v.recordArrayBase + (i - 1) * stride) ∧
    (∀ i, 1 ≤ i → v.recordAddr (i + 1) = v.recordAddr i + stride) ∧
    (∀ i j, i < k → j < stride →
      v.recordByteAddr i j < v.recordArrayBase + k * stride) ∧
    (∀ x, base + countOff ≤ x → x < base + countOff + 8 → x < v.recordArrayBase) := by
  subst hv
  refine ⟨rfl, fun i hi => rfl, ?_, ?_, ?_⟩
  · intro i hi
    simp only [VarTagView.recordAddr, VarTagView.recordArrayBase, new_from_ptr_count]
    have h1 : i + 1 - 1 = i := by omega
    rw [h1]
    rcases Nat.exists_eq_add_of_le hi with ⟨d, rfl⟩
    have h2 : 1 + d - 1 = d := by omega
    rw [h2]
    ring
  · intro i j hi hj
    simp only [VarTagView.recordByteAddr, VarTagView.recordArrayBase, new_from_ptr_count]
    have h2 : (i + 1) * stride ≤ k * stride := Nat.mul_le_mul_right _ hi
    have h3 : i * stride + j < (i + 1) * stride := by
      rw [Nat.add_mul, Nat.one_mul]
      exact Nat.add_lt_add_left hj _
    have h4 : i * stride + j < k * stride := Nat.lt_of_lt_of_le h3 h2
    have h5 := Nat.add_lt_add_left h4 (base + fixedSize)
    calc base + fixedSize + i * stride + j
        = base + fixedSize + (i * stride + j) := by rw [Nat.add_assoc]
      _ < base + fixedSize + k * stride := h5
  · intro x hx1 hx2
    simp only [VarTagView.recordArrayBase, new_from_ptr_count]
    omega

/-- C2 witness: with the memory-map parameters (fixed header 24, stride 24)
and count 3, the third record starts at `recordArrayBase + 2*24` and its
last byte stays below `recordArrayBase + 3*24`. -/
theorem decoder_record_layout_witness :
    ((0:Nat) < 24 ∧ 16 + 8 ≤ 24) ∧
    (new_from_ptr_count 100 24 24 3).count = 3 ∧
    (new_from_ptr_count 100 24 24 3).recordAddr 3 =
      (new_from_ptr_count 100 24 24 3).recordArrayBase + 2 * 24 ∧
    (new_from_ptr_count 100 24 24 3).recordByteAddr 2 23 <
      (new_from_ptr_count 100 24 24 3).recordArrayBase + 3 * 24 := by
  have h := decoder_record_layout 100 24 24 3 16 (new_from_ptr_count 100 24 24 3) rfl
    (by decide) (by decide)
  exact ⟨⟨by decide, by decide⟩, h.1, h.2.1 3 (by decide), h.2.2.2.1 2 23 (by decide) (by decide)⟩

/-- C3: the count-prefixed accessors read the 64-bit record count at a
tag-kind-specific offset from the tag base: `memory_map`, `edid_info`,
`modules` and `pmrs` read it right after the shared 16-byte TagHeader
(offset 16), while `smp` (and `smp_mut`) read it at offset 32, which is the
TagHeader followed by two 64-bit fields. -/
theorem count_offsets_per_kind (m : Mem) (s : StivaleStruct) (fuel : Nat) :
    tagHeaderSize = 16 ∧
    s.memory_map m fuel = (s.get_tag m fuel 0x2187f79e8612de07).map
      (fun addr => new_from_ptr_count addr 24 24 (readU64 m (addr + 16))) ∧
    s.edid_info m fuel = (s.get_tag m fuel 0x968609d7af96b845).map
      (fun addr => new_from_ptr_count addr 24 1 (readU64 m (addr + 16))) ∧
    s.modules m fuel = (s.get_tag m fuel 0x4b6fe466aade04ce).map
      (fun addr => new_from_ptr_count addr 24 144 (readU64 m (addr + 16))) ∧
    s.pmrs m fuel = (s.get_tag m fuel 0x5df266a64047b6bd).map
      (fun addr => new_from_ptr_count addr 24 24 (readU64 m (addr + 16))) ∧
    s.smp m fuel = (s.get_tag m fuel 0x34d1d96339647025).map
      (fun addr => new_from_ptr_count addr 40 24 (readU64 m (addr + 32))) ∧
    s.smp_mut m fuel = s.smp m fuel ∧
    (32:Nat) = tagHeaderSize + 8 + 8 :=
  ⟨rfl, rfl, rfl, rfl, rfl, rfl, rfl, rfl⟩

theorem takeWhile_append_eq_self (p rest : List Nat) (hnz : ∀ b ∈ p, b ≠ 0)
    (hrest : rest = [] ∨ rest.head? = some 0) :
    (p ++ rest).takeWhile (fun b => b != 0) = p := by
  induction p with
  | nil =>
    rcases hrest with h | h
    · simp [h]
    · cases rest with
      | nil => rfl
      | cons r t =>
        simp only [List.head?] at h
        injection h with h
        simp [List.takeWhile_cons, h]
  | cons a p ih =>
    have ha : a ≠ 0 := hnz a (List.mem_cons_self a p)
    have hb : (a != 0) = true := by simpa using ha
    simp only [List.cons_append, List.takeWhile_cons, hb, if_true]
    rw [ih (fun b hbm => hnz b (List.mem_cons_of_mem _ hbm))]

/-- Example struct for the round-trip counterexample: the brand buffer already
holds `"abc"` before the setter runs. -/
def exS6 : StivaleStruct :=
  ⟨[97, 98, 99] ++ List.replicate 61 0, List.replicate 64 0, 0⟩

/-- C6 counterexample: on a boot struct whose brand buffer already holds the
bytes of `"abc"`, setting the two-byte brand `"ab"` and reading it back
yields `"abc"` — the old brand's trailing byte stays visible — so the
round-trip claim fails for arbitrary boot structs. -/
theorem brand_round_trip_counterexample :
    (exS6.set_bootloader_brand [97, 98]).1.bootloader_brand_str = [97, 98, 99] ∧
    (exS6.set_bootloader_brand [97, 98]).1.bootloader_brand_str ≠ [97, 98] := by
  constructor
  · decide
  · decide

/-- C6 (amended): for every NUL-free byte string of length at most 64 and
every boot struct whose relevant buffer is NUL at every index from the
string's length on (for example a freshly created struct), setting the
bootloader brand and then reading it back yields exactly the string with no
padding bytes visible; likewise for the version. -/
theorem brand_version_round_trip (s : StivaleStruct) (brand version : List Nat)
    (hbL : s.bootloader_brand.length = 64) (hvL : s.bootloader_version.length = 64)
    (hb64 : brand.length ≤ 64) (hv64 : version.length ≤ 64)
    (hbnz : ∀ b ∈ brand, b ≠ 0) (hvnz : ∀ b ∈ version, b ≠ 0)
    (hbpad : ∀ i, i < 64 → brand.length ≤ i → s.bootloader_brand[i]? = some 0)
    (hvpad : ∀ i, i < 64 → version.length ≤ i → s.bootloader_version[i]? = some 0) :
    (s.set_bootloader_brand brand).1.bootloader_brand_str = brand ∧
    (s.set_bootloader_version version).1.bootloader_version_str = version := by
  constructor
  · have hcond : brand.length ≤ s.bootloader_brand.length := by omega
    have e : (s.set_bootloader_brand brand).1.bootloader_brand =
        brand ++ s.bootloader_brand.drop brand.length := by
      simp [StivaleStruct.set_bootloader_brand, if_pos hcond]
    show ((s.set_bootloader_brand brand).1.bootloader_brand).takeWhile (fun b => b != 0) = brand
    rw [e]
    apply takeWhile_append_eq_self _ _ hbnz
    rcases Nat.lt_or_ge brand.length 64 with h | h
    · right
      rw [List.head?_drop]
      exact hbpad brand.length h (Nat.le_refl _)
    · left
      have h64 : brand.length = 64 := by omega
      rw [h64, ← hbL, List.drop_length]
  · have hcond : version.length ≤ s.bootloader_version.length := by omega
    have e : (s.set_bootloader_version version).1.bootloader_version =
        version ++ s.bootloader_version.drop version.length := by
      simp [StivaleStruct.set_bootloader_version, if_pos hcond]
    show ((s.set_bootloader_version version).1.bootloader_version).takeWhile (fun b => b != 0) = version
    rw [e]
    apply takeWhile_append_eq_self _ _ hvnz
    rcases Nat.lt_or_ge version.length 64 with h | h
    · right
      rw [List.head?_drop]
      exact hvpad version.length h (Nat.le_refl _)
    · left
      have h64 : version.length = 64 := by omega
      rw [h64, ← hvL, List.drop_length]

/-- C6 witness: on the freshly created struct, setting the brand `"ab"` and
the version `"x"` and reading them back yields them exactly. -/
theorem brand_version_round_trip_witness :
    ((∀ b ∈ [97, 98], b ≠ 0) ∧ StivaleStruct.new.bootloader_brand.length = 64) ∧
    (StivaleStruct.new.set_bootloader_brand [97, 98]).1.bootloader_brand_str = [97, 98] ∧
    (StivaleStruct.new.set_bootloader_version [120]).1.bootloader_version_str = [120] := by
  have h := brand_version_round_trip StivaleStruct.new [97, 98] [120] (by decide) (by decide)
    (by decide) (by decide) (by decide) (by decide) (by decide) (by decide)
  exact ⟨⟨by decide, by decide⟩, h.1, h.2⟩

/-- C7: when the chain holds an SMP tag, writing a new target-stack value into
record `i` through the view returned by the mutable accessor `smp_mut` and
re-reading through the read-only accessor `smp` observes the updated value
(reduced mod 2^64) in record `i`, while every other record and all of the
tag's fixed header bytes (TagHeader, leading fields and count) are
unchanged; the write addresses are assumed disjoint from the chain's tag
headers, as guaranteed by a well-formed bootloader layout. -/
theorem smp_record_write_frame (m : Mem) (s : StivaleStruct) (fuel : Nat)
    {l : List Nat} (hc : Chain m s.tags l) (addr : Nat)
    (hfound : s.get_tag m fuel 0x34d1d96339647025 = some addr)
    (v : VarTagView) (hv : s.smp_mut m fuel = some v)
    (i val : Nat) (hi : i < v.count)
    (hdisj : ∀ t ∈ l, t + 16 ≤ v.targetStackAddr i ∨ v.targetStackAddr i + 8 ≤ t) :
    s.smp (writeTargetStack m v i val) fuel = some v ∧
    readTargetStack (writeTargetStack m v i val) v i = val % 2 ^ 64 ∧
    (∀ j, j ≠ i → VarTagView.readRecord (writeTargetStack m v i val) v j =
      VarTagView.readRecord m v j) ∧
    readBytes (writeTargetStack m v i val) v.base v.fixedSize =
      readBytes m v.base v.fixedSize := by
  have hunf : s.smp_mut m fuel = (s.get_tag m fuel 0x34d1d96339647025).map
      (fun a => new_from_ptr_count a smpFixedSize smpStride (readU64 m (a + 32))) := rfl
  rw [hunf, hfound, Option.map_some'] at hv
  have hveq : v = new_from_ptr_count addr smpFixedSize smpStride (readU64 m (addr + 32)) :=
    (Option.some_inj.mp hv).symm
  subst hveq
  have hw : VarTagView.targetStackAddr
      (new_from_ptr_count addr smpFixedSize smpStride (readU64 m (addr + 32))) i =
      addr + 40 + i * 24 + 8 := rfl
  have hm2 : writeTargetStack m
      (new_from_ptr_count addr smpFixedSize smpStride (readU64 m (addr + 32))) i val =
      writeU64 m (addr + 40 + i * 24 + 8) val := rfl
  rw [hm2]
  rw [hw] at hdisj
  refine ⟨?_, ?_, ?_, ?_⟩
  · have hid : ∀ t ∈ l, tagIdentifier (writeU64 m (addr + 40 + i * 24 + 8) val) t =
        tagIdentifier m t := by
      intro t ht
      apply readU64_writeU64_out
      rcases hdisj t ht with h | h
      · left; omega
      · right; omega
    have hnx : ∀ t ∈ l, tagNext (writeU64 m (addr + 40 + i * 24 + 8) val) t =
        tagNext m t := by
      intro t ht
      apply readU64_writeU64_out
      rcases hdisj t ht with h | h
      · left; omega
      · right; omega
    have hgt : (s.get_tag (writeU64 m (addr + 40 + i * 24 + 8) val) fuel
        0x34d1d96339647025) = some addr := by
      show getTagLoop (writeU64 m (addr + 40 + i * 24 + 8) val) 0x34d1d96339647025 fuel s.tags
          = some addr
      rw [getTagLoop_congr m (writeU64 m (addr + 40 + i * 24 + 8) val)
        0x34d1d96339647025 hc hid hnx fuel]
      exact hfound
    have hcnt : readU64 (writeU64 m (addr + 40 + i * 24 + 8) val) (addr + 32) =
        readU64 m (addr + 32) := by
      apply readU64_writeU64_out
      left
      omega
    show (s.get_tag (writeU64 m (addr + 40 + i * 24 + 8) val) fuel 0x34d1d96339647025).map
        (fun a => new_from_ptr_count a smpFixedSize smpStride
          (readU64 (writeU64 m (addr + 40 + i * 24 + 8) val) (a + 32))) = some _
    rw [hgt, Option.map_some', hcnt]
  · exact readU64_writeU64_same m (addr + 40 + i * 24 + 8) val
  · intro j hj
    show readBytes (writeU64 m (addr + 40 + i * 24 + 8) val) (addr + 40 + j * 24) 24 =
        readBytes m (addr + 40 + j * 24) 24
    apply readBytes_writeU64_out
    rcases Nat.lt_or_ge j i with h | h
    · left; omega
    · right
      have : i < j := by omega
      omega
  · show readBytes (writeU64 m (addr + 40 + i * 24 + 8) val) addr 40 = readBytes m addr 40
    apply readBytes_writeU64_out
    left
    omega

/-- Example memory for the SMP witness: an SMP tag at 1000 with two CPU
records whose target stacks initially hold 11 and 22. -/
def exMem7 : Mem :=
  mkMem [(1000, 0x34d1d96339647025), (1008, 0), (1016, 0), (1024, 0), (1032, 2),
    (1048, 11), (1072, 22)]

/-- Example struct whose chain starts at the SMP tag at 1000. -/
def exS7 : StivaleStruct := ⟨List.replicate 64 0, List.replicate 64 0, 1000⟩

/-- The decoded SMP view of the witness memory: two records starting at 1040. -/
def exV7 : VarTagView := new_from_ptr_count 1000 40 24 2

theorem exChain7 : Chain exMem7 1000 [1000] := by
  refine Chain.cons (by decide) ?_
  have h : tagNext exMem7 1000 = 0 := by decide
  rw [h]
  exact Chain.nil

/-- C7 witness: writing target stack 777 into record 0 of the concrete
two-record SMP tag is observed through `smp`, while record 1 is unchanged. -/
theorem smp_record_write_frame_witness :
    (exS7.get_tag exMem7 1 0x34d1d96339647025 = some 1000 ∧ (0:Nat) < exV7.count) ∧
    exS7.smp (writeTargetStack exMem7 exV7 0 777) 1 = some exV7 ∧
    readTargetStack (writeTargetStack exMem7 exV7 0 777) exV7 0 = 777 % 2 ^ 64 ∧
    VarTagView.readRecord (writeTargetStack exMem7 exV7 0 777) exV7 1 =
      VarTagView.readRecord exMem7 exV7 1 := by
  have h := smp_record_write_frame exMem7 exS7 1 exChain7 1000 (by decide) exV7 (by decide)
    0 777 (by decide) (by decide)
  exact ⟨⟨by decide, by decide⟩, h.1, h.2.1, h.2.2.1 1 (by decide)⟩
